import Mathlib

/-!
Shallow embedding of the RelayX-API client (src/src/index.ts): the
postMessage correlation layer of class RelayXClient.  JS strings are
modelled as List Char where character-level manipulation matters, JS
objects as association lists, and the per-instance callback registry
(this.messageCallbacks) as an association list from messageId to the
optional armed-timer duration.  Continuation invocations (calls to a
pending promise resolver) are returned explicitly as data, so that
exactly-once settlement is a statement about the returned lists.
-/

namespace RelayX

/-- Dynamic JS value, as far as the claims need it. -/
inductive Val where
  | str : String → Val
  | num : Int → Val
  deriving DecidableEq

/-- A JS object literal: insertion-ordered key/value pairs. -/
abbrev Obj := List (String × Val)

/-- Field read on an object built by spread syntax: the binding added last
wins, matching JS object-literal semantics where a later spread key
overwrites an earlier explicit key. -/
def objGet (o : Obj) (k : String) : Option Val :=
  (o.reverse.find? (fun p => p.1 == k)).map (fun p => p.2)

/-- Error code enumeration (source lines 8-15). -/
inductive ErrCode where
  | invalidPayload
  | missingCertificate
  | invalidCertificate
  | methodNotFound
  | exceededUploadSizeLimit
  | timeoutError
  deriving DecidableEq

/-- Numeric wire value of each error kind (source lines 8-15). -/
def ErrCode.toNat : ErrCode → Nat
  | .invalidPayload => 30001
  | .missingCertificate => 30002
  | .invalidCertificate => 30003
  | .methodNotFound => 30004
  | .exceededUploadSizeLimit => 30010
  | .timeoutError => 30011

/-- ErrorResponse shape (source lines 17-22); data field omitted, no claim
consults it. -/
structure ErrResponse where
  code : ErrCode
  messageId : String
  message : Option String
  deriving DecidableEq

/-- handleError (source lines 112-128).  The source computes a local
errorMessage from the options and the default-message table (line 123)
but never assigns it to the returned object: lines 125-127 build the
response from code and messageId only, so the message field is always
absent.  The msg argument is accordingly dropped, mirroring the source. -/
def handleError (_cmd : String) (messageId : String) (code : ErrCode)
    (_msg : Option String) : ErrResponse :=
  ⟨code, messageId, none⟩

/-- What a pending call resolver is invoked with: either the raw inbound
reply (identified here by its correlation id) or a synthesized error. -/
inductive Settled where
  | reply : String → Settled
  | errResp : ErrResponse → Settled
  deriving DecidableEq

/-- this.messageCallbacks of one instance: messageId mapped to the armed
timer duration, none when no timer was armed (source lines 52-58). -/
abbrev Registry := List (String × Option Nat)

/-- Registry lookup: newest binding first, matching JS property overwrite
since registration conses to the front. -/
def lookupCb (cbs : Registry) (id : String) : Option (Option Nat) :=
  (cbs.find? (fun p => p.1 == id)).map (fun p => p.2)

/-- JS delete of a registry key. -/
def eraseCb (cbs : Registry) (id : String) : Registry :=
  cbs.filter (fun p => !(p.1 == id))

/-- cleanupCallback (source lines 178-189): guard on falsy or absent id,
clear the timer when armed, delete the entry.  Returns the new registry
and the ids whose timers were cleared. -/
def cleanupCallback (cbs : Registry) (id : String) : Registry × List String :=
  if id = "" then (cbs, [])
  else
    match lookupCb cbs id with
    | none => (cbs, [])
    | some t => (eraseCb cbs id, match t with | some _ => [id] | none => [])

/-- Result of one settlement-relevant step on an instance: the registry
afterwards, the resolver invocations made, and the timers cleared. -/
structure StepOut where
  cbs : Registry
  resolved : List (String × Settled)
  cancelled : List String
  deriving DecidableEq

/-- messageHandler (source lines 555-570) acting on one instance registry:
an inbound event whose data has a string messageId matching a callback
settles it (cleanup first, then resolve with the raw structure); anything
else is ignored.  The event is abstracted to its correlation field: none
models data without a string messageId. -/
def messageHandlerStep (cbs : Registry) (evt : Option String) : StepOut :=
  match evt with
  | none => ⟨cbs, [], []⟩
  | some mid =>
    match lookupCb cbs mid with
    | none => ⟨cbs, [], []⟩
    | some _ =>
      let cl := cleanupCallback cbs mid
      ⟨cl.1, [(mid, Settled.reply mid)], cl.2⟩

/-- handleTimeout (source lines 191-202): when the callback is still
registered, resolve it with a timeout-kind error and clean up. -/
def handleTimeout (cbs : Registry) (mid : String) (cmd : String) : StepOut :=
  match lookupCb cbs mid with
  | none => ⟨cbs, [], []⟩
  | some _ =>
    let cl := cleanupCallback cbs mid
    ⟨cl.1, [(mid, Settled.errResp (handleError cmd mid ErrCode.timeoutError
        (some "Request timed out")))], cl.2⟩

/-- The registry-clearing half of destroy (source lines 583-597): every
pending call is resolved with a timeout-kind error built by
handleError with the message Connection destroyed, every armed timer is
cleared, and the registry is reset to empty. -/
def destroyCallbacks (cbs : Registry) : StepOut :=
  ⟨[],
   cbs.map (fun p => (p.1, Settled.errResp (handleError "" p.1
       ErrCode.timeoutError (some "Connection destroyed")))),
   (cbs.filter (fun p => p.2.isSome)).map (fun p => p.1)⟩

/-- Result of _sendMessage: the registry afterwards, the message posted to
the parent window when one was, and any immediate resolver invocation. -/
structure SendOut where
  cbs : Registry
  sent : Option Obj
  resolved : List (String × Settled)
  deriving DecidableEq

/-- _sendMessage (source lines 212-247).  The outgoing message is the
object literal with cmd and messageId written first and the payload
spread after them (lines 215-219), so payload keys overwrite.  With a
reachable parent the message is posted, the callback registered, and a
timer armed at timeoutMs unless cmd is openURL or scanQRCode (lines
228-240).  Otherwise cleanupAndResolve fires: cleanup of the (never
registered) fresh id, then an immediate error resolution whose code
defaults to invalidPayload (lines 241-245). -/
def sendMessageCore (cbs : Registry) (parentReachable : Bool) (cmd : String)
    (payload : Obj) (freshId : String) (timeoutMs : Nat) : SendOut :=
  let message : Obj := ("cmd", Val.str cmd) :: ("messageId", Val.str freshId) :: payload
  if parentReachable then
    let timer : Option Nat :=
      if cmd = "openURL" ∨ cmd = "scanQRCode" then none else some timeoutMs
    ⟨(freshId, timer) :: cbs, some message, []⟩
  else
    let cl := cleanupCallback cbs freshId
    ⟨cl.1, none, [(freshId, Settled.errResp (handleError cmd freshId
        ErrCode.invalidPayload
        (some "Unable to send message to parent window. Parent window not found.")))]⟩

/-- The per-instance default timeout (source line 64): config.timeout is
used only when truthy, a zero (or absent) configured value falls back to
30000 ms. -/
def defaultTimeout (cfgTimeout : Option Nat) : Nat :=
  match cfgTimeout with
  | some t => if t = 0 then 30000 else t
  | none => 30000

/-- The keys of this.commandMap (source lines 66-84). -/
def commandNames : List String :=
  ["connectCocoPay", "getSafeAreaInsets", "getLanguage", "openURL",
   "scanQRCode", "copyToClipboard", "saveImage", "getAccount",
   "setExtendedData", "getExtendedData", "generateSignature",
   "verifySignature", "encrypt", "decrypt", "registerService",
   "checkServiceStatus", "sendServiceMessage"]

/-- Whitespace class of the regex at source line 163, on the ASCII range
relevant to base64 input. -/
def isSpaceChar (c : Char) : Bool :=
  c == ' ' || c == '\t' || c == '\n' || c == '\r' || c == '\x0b' || c == '\x0c'

/-- JS String.split on a comma: always returns at least one segment, the
empty string splits to one empty segment. -/
def splitComma : List Char → List (List Char)
  | [] => [[]]
  | c :: rest =>
    if c = ',' then [] :: splitComma rest
    else
      match splitComma rest with
      | [] => [[c]]
      | s :: ss => (c :: s) :: ss

/-- The prefix-stripping step of getBase64ImageSize (source line 162):
base64String.split(one comma)[1] || base64String, i.e. the second
split segment when it exists and is non-empty, otherwise the whole
input string. -/
def jsSecondSegment (l : List Char) : List Char :=
  match splitComma l with
  | _ :: b :: _ => if b = [] then l else b
  | _ => l

/-- Whitespace removal (source line 163). -/
def stripSpaces (l : List Char) : List Char :=
  l.filter (fun c => !(isSpaceChar c))

/-- Count of trailing padding characters, the regex match at source
line 166. -/
def trailingEq (l : List Char) : Nat :=
  (l.reverse.takeWhile (fun c => c == '=')).length

/-- getBase64ImageSize (source lines 160-176), bytes field only: the
stripped length times 3/4 minus the padding count, floored.  The
subtraction can go below zero in the source (Math.floor of a negative
value), hence the Int result. -/
def getBase64ImageSize (l : List Char) : Int :=
  (((stripSpaces (jsSecondSegment l)).length * 3 / 4 : Nat) : Int) -
    (trailingEq (stripSpaces (jsSecondSegment l)) : Int)

/-- The stripping step as the spec describes it: drop everything up to and
including the first comma when one occurs, otherwise keep the whole
string. -/
def specStripToComma (l : List Char) : List Char :=
  if ',' ∈ l then List.tail (l.dropWhile (fun c => !(c == ','))) else l

/-- The size routine as described by the spec sentence word for word:
strip up to and including the first comma, strip whitespace, then the
same floor formula. -/
def specBase64Size (l : List Char) : Int :=
  (((stripSpaces (specStripToComma l)).length * 3 / 4 : Nat) : Int) -
    (trailingEq (stripSpaces (specStripToComma l)) : Int)

/-- The required data-URI prefix of saveImage input (source line 359). -/
def dataImagePref : List Char := "data:image/".data

/-- JS String.trim on the character list. -/
def trimChars (l : List Char) : List Char :=
  ((l.dropWhile isSpaceChar).reverse.dropWhile isSpaceChar).reverse

/-- The local validation of saveImage (source lines 353-384) on the image
string: the falsy-trim and prefix guard rejects with invalidPayload,
then a computed size strictly above 1 MiB rejects with
exceededUploadSizeLimit, and otherwise the payload goes to
_sendMessage (modelled as none, no rejection). -/
def saveImageValidate (image : List Char) : Option ErrCode :=
  if (trimChars image).isEmpty || !(dataImagePref.isPrefixOf image) then
    some ErrCode.invalidPayload
  else if getBase64ImageSize image > (1048576 : Int) then
    some ErrCode.exceededUploadSizeLimit
  else
    none

/-- The standard base64 alphabet. -/
def b64alphabet : List Char :=
  "ABCDEFGHIJKLMNOPQRSTUVWXYZabcdefghijklmnopqrstuvwxyz0123456789+/".data

/-- Character for a 6-bit group. -/
def b64char (n : Nat) : Char := b64alphabet.getD (n % 64) 'A'

/-- Standard base64 encoding of a byte sequence, three bytes to four
characters with trailing padding. -/
def base64Encode : List Nat → List Char
  | [] => []
  | [a] => [b64char (a / 4), b64char (a % 4 * 16), '=', '=']
  | [a, b] => [b64char (a / 4), b64char (a % 4 * 16 + b / 16),
               b64char (b % 16 * 4), '=']
  | a :: b :: c :: rest =>
      b64char (a / 4) :: b64char (a % 4 * 16 + b / 16) ::
      b64char (b % 16 * 4 + c / 64) :: b64char (c % 64) :: base64Encode rest

/-- One constructor or destroy event on the static class state. -/
inductive LifeEvent where
  | construct
  | destroy
  deriving DecidableEq

/-- The static class state: RelayXClient.instanceCount and whether
RelayXClient.listenerFn is non-null (source lines 48-49). -/
structure Shared where
  instanceCount : Int
  listenerInstalled : Bool
  deriving DecidableEq

/-- Constructor lines 86-91 and destroy lines 573-580 acting on the static
state: construction increments the count and installs the listener when
absent (installed afterwards either way); destruction decrements and
uninstalls exactly when the count reaches zero. -/
def lifeStep (s : Shared) : LifeEvent → Shared
  | .construct => ⟨s.instanceCount + 1, true⟩
  | .destroy =>
    ⟨s.instanceCount - 1,
     if s.instanceCount - 1 = 0 then false else s.listenerInstalled⟩

/-- Run a sequence of lifecycle events. -/
def lifeRun (s : Shared) (tr : List LifeEvent) : Shared :=
  tr.foldl lifeStep s

/-- A well-formed usage trace: destroy is only called on a live instance,
so it requires a positive instance count. -/
def lifeValid (s : Shared) : List LifeEvent → Bool
  | [] => true
  | .construct :: tr => lifeValid (lifeStep s .construct) tr
  | .destroy :: tr =>
    if 0 < s.instanceCount then lifeValid (lifeStep s .destroy) tr else false

/-- The static state before any instance exists. -/
def initialShared : Shared := ⟨0, false⟩

/-- The process-wide inbound dispatch (source lines 88-90 with 555-570):
the one installed listener is messageHandler bound to the instance that
installed it, so delivery runs the handler on that single registry and
touches no other instance. -/
def deliverShared (insts : List Registry) (bound : Option Nat)
    (evt : Option String) : List Registry × List (String × Settled) :=
  match bound with
  | none => (insts, [])
  | some i =>
    match insts.get? i with
    | none => (insts, [])
    | some r =>
      let st := messageHandlerStep r evt
      (insts.set i st.cbs, st.resolved)

/-- Shape under which the source's prefix stripping agrees with the spec's
description: at most one comma, and when one occurs the part after it is
non-empty. -/
def goodDataUriShape (l : List Char) : Bool :=
  match splitComma l with
  | [_] => true
  | [_, b] => !b.isEmpty
  | _ => false

theorem lookupCb_eraseCb (cbs : Registry) (id : String) :
    lookupCb (eraseCb cbs id) id = none := by
  unfold lookupCb eraseCb
  have h : (cbs.filter (fun p => !(p.1 == id))).find? (fun p => p.1 == id) = none := by
    rw [List.find?_eq_none]
    intro x hx
    have hq := (List.mem_filter.mp hx).2
    simpa using hq
  rw [h]
  rfl

theorem lookupCb_cleanup (cbs : Registry) (id : String) (h : id ≠ "") :
    lookupCb (cleanupCallback cbs id).1 id = none := by
  unfold cleanupCallback
  rw [if_neg h]
  cases hl : lookupCb cbs id with
  | none => simpa using hl
  | some t => simpa using lookupCb_eraseCb cbs id

/-- C1: settlement happens exactly once.  After a pending call is settled
through any path (matching inbound reply via messageHandler, timeout
firing via handleTimeout, or instance teardown via destroy), its token
is absent from the instance registry; when a timer was armed, the
settling step clears it; and a settlement attempt on a token absent
from a registry is a no-op that changes nothing and invokes no
continuation.  Tokens are minted correlation ids, hence non-empty. -/
theorem c1_settlement_exactly_once (cbs : Registry) (t c : String) (ht : t ≠ "") :
    lookupCb (messageHandlerStep cbs (some t)).cbs t = none ∧
    lookupCb (handleTimeout cbs t c).cbs t = none ∧
    (destroyCallbacks cbs).cbs = [] ∧
    (∀ d, lookupCb cbs t = some (some d) →
      t ∈ (messageHandlerStep cbs (some t)).cancelled ∧
      t ∈ (handleTimeout cbs t c).cancelled ∧
      t ∈ (destroyCallbacks cbs).cancelled) ∧
    (∀ cbs₂ : Registry, lookupCb cbs₂ t = none →
      messageHandlerStep cbs₂ (some t) = ⟨cbs₂, [], []⟩ ∧
      handleTimeout cbs₂ t c = ⟨cbs₂, [], []⟩) := by
  refine ⟨?_, ?_, rfl, ?_, ?_⟩
  · cases hl : lookupCb cbs t with
    | none => simp [messageHandlerStep, hl]
    | some d => simpa [messageHandlerStep, hl] using lookupCb_cleanup cbs t ht
  · cases hl : lookupCb cbs t with
    | none => simp [handleTimeout, hl]
    | some d => simpa [handleTimeout, hl] using lookupCb_cleanup cbs t ht
  · intro d hl
    have hfind : cbs.find? (fun p => p.1 == t) = some (t, some d) := by
      unfold lookupCb at hl
      cases hf : cbs.find? (fun p => p.1 == t) with
      | none => rw [hf] at hl; exact absurd hl (by simp)
      | some q =>
        rw [hf] at hl
        have hq1 := List.find?_some hf
        have hq2 : q.2 = some d := by simpa using hl
        have : q = (t, some d) := by
          cases q
          simp_all [beq_iff_eq]
        rw [this]
    have hmem : (t, some d) ∈ cbs := List.mem_of_find?_eq_some hfind
    refine ⟨?_, ?_, ?_⟩
    · simp [messageHandlerStep, hl, cleanupCallback, ht]
    · simp [handleTimeout, hl, cleanupCallback, ht]
    · unfold destroyCallbacks
      simp only [StepOut.cancelled]
      refine List.mem_map.mpr ⟨(t, some d), ?_, rfl⟩
      exact List.mem_filter.mpr ⟨hmem, by simp⟩
  · intro cbs₂ h₂
    exact ⟨by simp [messageHandlerStep, h₂], by simp [handleTimeout, h₂]⟩

theorem c1_witness :
    lookupCb (messageHandlerStep [("tok", some 30000)] (some "tok")).cbs "tok" = none :=
  (c1_settlement_exactly_once [("tok", some 30000)] "tok" "getLanguage" (by decide)).1

theorem lifeInv (tr : List LifeEvent) : ∀ s : Shared, lifeValid s tr = true →
    (s.listenerInstalled = true ↔ 0 < s.instanceCount) → 0 ≤ s.instanceCount →
    ((lifeRun s tr).listenerInstalled = true ↔ 0 < (lifeRun s tr).instanceCount) := by
  induction tr with
  | nil => intro s _ hinv _; simpa [lifeRun] using hinv
  | cons e tr ih =>
    intro s hv hinv hnn
    cases e with
    | construct =>
      have hv₂ : lifeValid (lifeStep s .construct) tr = true := hv
      have hrun : lifeRun s (.construct :: tr) = lifeRun (lifeStep s .construct) tr := rfl
      rw [hrun]
      refine ih (lifeStep s .construct) hv₂ ?_ ?_
      · simp [lifeStep]
        omega
      · simp [lifeStep]
        omega
    | destroy =>
      have hpos : 0 < s.instanceCount := by
        by_contra hc
        simp [lifeValid, if_neg hc] at hv
      have hv₂ : lifeValid (lifeStep s .destroy) tr = true := by
        simpa [lifeValid, if_pos hpos] using hv
      have hrun : lifeRun s (.destroy :: tr) = lifeRun (lifeStep s .destroy) tr := rfl
      rw [hrun]
      refine ih (lifeStep s .destroy) hv₂ ?_ ?_
      · by_cases hz : s.instanceCount - 1 = 0
        · simp [lifeStep, if_pos hz]
          omega
        · have : s.listenerInstalled = true := hinv.mpr hpos
          simp [lifeStep, if_neg hz, this]
          omega
      · simp [lifeStep]
        omega

/-- C5: across any well-formed sequence of constructor and destroy calls
(destroy only on a live instance), the shared inbound listener is
installed exactly when the number of constructions exceeds the number
of destructions, i.e. when at least one instance is live. -/
theorem c5_listener_iff_live (tr : List LifeEvent)
    (h : lifeValid initialShared tr = true) :
    ((lifeRun initialShared tr).listenerInstalled = true ↔
      0 < (lifeRun initialShared tr).instanceCount) :=
  lifeInv tr initialShared h (by simp [initialShared]) (by simp [initialShared])

theorem c5_witness :
    ((lifeRun initialShared
        [LifeEvent.construct, LifeEvent.construct, LifeEvent.destroy]).listenerInstalled = true ↔
      0 < (lifeRun initialShared
        [LifeEvent.construct, LifeEvent.construct, LifeEvent.destroy]).instanceCount) :=
  c5_listener_iff_live
    [LifeEvent.construct, LifeEvent.construct, LifeEvent.destroy] (by decide)

theorem splitComma_ne_nil : ∀ l : List Char, splitComma l ≠ []
  | [] => by simp [splitComma]
  | c :: t => by
    simp only [splitComma]
    by_cases hc : c = ','
    · simp [hc]
    · rw [if_neg hc]
      cases hs : splitComma t with
      | nil => simp
      | cons s ss => simp

theorem splitComma_no_comma : ∀ l : List Char, ',' ∉ l → splitComma l = [l]
  | [] => fun _ => rfl
  | c :: t => fun h => by
    have hc : ¬(c = ',') := fun he => h (by rw [← he]; exact List.mem_cons_self c t)
    have ht : ',' ∉ t := fun hm => h (List.mem_cons_of_mem c hm)
    simp only [splitComma, if_neg hc, splitComma_no_comma t ht]

theorem splitComma_eq_single : ∀ (l a : List Char), splitComma l = [a] → l = a ∧ ',' ∉ l
  | [], a, h => by
    have ha : a = [] := by simpa [splitComma] using h.symm
    subst ha
    exact ⟨rfl, by simp⟩
  | c :: t, a, h => by
    have hc : ¬(c = ',') := by
      intro he
      rw [splitComma, if_pos he] at h
      simp only [List.cons.injEq] at h
      exact splitComma_ne_nil t h.2
    rw [splitComma, if_neg hc] at h
    cases hs : splitComma t with
    | nil => exact absurd hs (splitComma_ne_nil t)
    | cons s ss =>
      rw [hs] at h
      simp only [List.cons.injEq] at h
      obtain ⟨ha, hss⟩ := h
      have hts : splitComma t = [s] := by rw [hs, hss]
      obtain ⟨hts₁, hts₂⟩ := splitComma_eq_single t s hts
      constructor
      · rw [← ha, hts₁]
      · intro hm
        rcases List.mem_cons.mp hm with he | hmt
        · exact hc he.symm
        · exact hts₂ hmt

theorem splitComma_eq_pair : ∀ (l a b : List Char), splitComma l = [a, b] →
    l = a ++ ',' :: b ∧ ',' ∉ a
  | [], a, b, h => by simp [splitComma] at h
  | c :: t, a, b, h => by
    by_cases hc : c = ','
    · rw [splitComma, if_pos hc] at h
      simp only [List.cons.injEq] at h
      obtain ⟨ha, hts⟩ := h
      obtain ⟨ht, _⟩ := splitComma_eq_single t b hts
      subst hc
      refine ⟨?_, ?_⟩
      · rw [← ha, ht]; rfl
      · rw [← ha]; simp
    · rw [splitComma, if_neg hc] at h
      cases hs : splitComma t with
      | nil => exact absurd hs (splitComma_ne_nil t)
      | cons s ss =>
        rw [hs] at h
        simp only [List.cons.injEq] at h
        obtain ⟨ha, hss⟩ := h
        have hts : splitComma t = [s, b] := by rw [hs, hss]
        obtain ⟨ht, hns⟩ := splitComma_eq_pair t s b hts
        constructor
        · rw [← ha, ht]; rfl
        · rw [← ha]
          intro hm
          rcases List.mem_cons.mp hm with he | hmt
          · exact hc he.symm
          · exact hns hmt

theorem dropWhile_to_comma : ∀ (a b : List Char), ',' ∉ a →
    (a ++ ',' :: b).dropWhile (fun c => !(c == ',')) = ',' :: b
  | [], b, _ => by simp [List.dropWhile]
  | x :: t, b, h => by
    have hx : ¬(x = ',') := fun he => h (by rw [← he]; exact List.mem_cons_self x t)
    have ht : ',' ∉ t := fun hm => h (List.mem_cons_of_mem x hm)
    have hb : (!(x == ',')) = true := by simp [hx]
    simp only [List.cons_append, List.dropWhile_cons, hb, if_true]
    exact dropWhile_to_comma t b ht

theorem takeWhile_append_of_exists (p : Char → Bool) :
    ∀ (l₁ l₂ : List Char), (∃ x ∈ l₁, p x = false) →
      (l₁ ++ l₂).takeWhile p = l₁.takeWhile p
  | [], _, h => by simp at h
  | a :: t, l₂, h => by
    by_cases hp : p a = true
    · have ht : ∃ x ∈ t, p x = false := by
        rcases h with ⟨x, hx, hpx⟩
        rcases List.mem_cons.mp hx with rfl | hxt
        · rw [hp] at hpx; exact absurd hpx (by simp)
        · exact ⟨x, hxt, hpx⟩
      simp only [List.cons_append, List.takeWhile_cons, hp, if_true]
      rw [takeWhile_append_of_exists p t l₂ ht]
    · have hp₂ : p a = false := by simpa using hp
      simp [List.takeWhile_cons, hp₂]

theorem dropWhile_ne_nil_of_mem (p : Char → Bool) :
    ∀ (l : List Char) (x : Char), x ∈ l → p x = false → l.dropWhile p ≠ []
  | [], x, hx, _ => absurd hx (List.not_mem_nil x)
  | a :: t, x, hx, hpx => by
    by_cases hp : p a = true
    · rcases List.mem_cons.mp hx with rfl | hxt
      · rw [hp] at hpx; simp at hpx
      · simp only [List.dropWhile_cons, hp, if_true]
        exact dropWhile_ne_nil_of_mem p t x hxt hpx
    · have hp₂ : p a = false := by simpa using hp
      simp [List.dropWhile_cons, hp₂]

theorem b64char_mem (n : Nat) : b64char n ∈ b64alphabet := by
  have h : ∀ m, m < 64 → b64alphabet.getD m 'A' ∈ b64alphabet := by decide
  exact h (n % 64) (Nat.mod_lt n (by decide))

theorem b64char_props (n : Nat) :
    ¬(b64char n = ',') ∧ ¬(b64char n = '=') ∧ isSpaceChar (b64char n) = false := by
  have h : ∀ c ∈ b64alphabet,
      ¬(c = ',') ∧ ¬(c = '=') ∧ isSpaceChar c = false := by decide
  exact h (b64char n) (b64char_mem n)

theorem base64Encode_length : ∀ bs : List Nat,
    (base64Encode bs).length = 4 * ((bs.length + 2) / 3)
  | [] => by simp [base64Encode]
  | [_] => by simp [base64Encode]
  | [_, _] => by simp [base64Encode]
  | _ :: _ :: _ :: rest => by
    simp only [base64Encode, List.length_cons, base64Encode_length rest]
    omega

theorem base64Encode_no_comma : ∀ bs : List Nat, ',' ∉ base64Encode bs
  | [] => by simp [base64Encode]
  | [a] => by
    simp only [base64Encode, List.mem_cons, List.not_mem_nil, or_false]
    push_neg
    exact ⟨fun h => (b64char_props _).1 h.symm, fun h => (b64char_props _).1 h.symm,
      by decide, by decide⟩
  | [a, b] => by
    simp only [base64Encode, List.mem_cons, List.not_mem_nil, or_false]
    push_neg
    exact ⟨fun h => (b64char_props _).1 h.symm, fun h => (b64char_props _).1 h.symm,
      fun h => (b64char_props _).1 h.symm, by decide⟩
  | a :: b :: c :: rest => by
    simp only [base64Encode, List.mem_cons]
    push_neg
    refine ⟨fun h => (b64char_props _).1 h.symm, fun h => (b64char_props _).1 h.symm,
      fun h => (b64char_props _).1 h.symm, fun h => (b64char_props _).1 h.symm,
      base64Encode_no_comma rest⟩

theorem base64Encode_no_space : ∀ bs : List Nat,
    ∀ c ∈ base64Encode bs, isSpaceChar c = false
  | [] => by simp [base64Encode]
  | [a] => by
    intro c hc
    simp only [base64Encode, List.mem_cons, List.not_mem_nil, or_false] at hc
    rcases hc with rfl | rfl | rfl | rfl
    · exact (b64char_props _).2.2
    · exact (b64char_props _).2.2
    · decide
    · decide
  | [a, b] => by
    intro c hc
    simp only [base64Encode, List.mem_cons, List.not_mem_nil, or_false] at hc
    rcases hc with rfl | rfl | rfl | rfl
    · exact (b64char_props _).2.2
    · exact (b64char_props _).2.2
    · exact (b64char_props _).2.2
    · decide
  | a :: b :: c₀ :: rest => by
    intro c hc
    simp only [base64Encode, List.mem_cons] at hc
    rcases hc with rfl | rfl | rfl | rfl | hmem
    · exact (b64char_props _).2.2
    · exact (b64char_props _).2.2
    · exact (b64char_props _).2.2
    · exact (b64char_props _).2.2
    · exact base64Encode_no_space rest c hmem

theorem base64Encode_head : ∀ (bs : List Nat), bs ≠ [] →
    ∃ n t, base64Encode bs = b64char n :: t
  | [], h => absurd rfl h
  | [a], _ => ⟨a / 4, _, rfl⟩
  | [a, _], _ => ⟨a / 4, _, rfl⟩
  | a :: _ :: _ :: _, _ => ⟨a / 4, _, rfl⟩

theorem stripSpaces_id_of_no_space (l : List Char)
    (h : ∀ c ∈ l, isSpaceChar c = false) : stripSpaces l = l := by
  unfold stripSpaces
  apply List.filter_eq_self.mpr
  intro x hx
  simp [h x hx]

theorem jsSecondSegment_no_comma (l : List Char) (h : ',' ∉ l) :
    jsSecondSegment l = l := by
  unfold jsSecondSegment
  rw [splitComma_no_comma l h]

theorem trailingEq_append_right (xs ys : List Char) (y : Char) (hy : y ∈ ys)
    (hny : (y == '=') = false) : trailingEq (xs ++ ys) = trailingEq ys := by
  unfold trailingEq
  rw [List.reverse_append]
  rw [takeWhile_append_of_exists _ _ _ ⟨y, List.mem_reverse.mpr hy, hny⟩]

theorem beq_eq_false_of_ne_char {c d : Char} (h : ¬(c = d)) : (c == d) = false := by
  simpa using h

theorem base64Encode_trailing : ∀ bs : List Nat,
    trailingEq (base64Encode bs) = (3 - bs.length % 3) % 3
  | [] => rfl
  | [a] => by
    have hy := beq_eq_false_of_ne_char (b64char_props (a % 4 * 16)).2.1
    simp [base64Encode, trailingEq, hy]
  | [a, b] => by
    have hy := beq_eq_false_of_ne_char (b64char_props (b % 16 * 4)).2.1
    simp [base64Encode, trailingEq, hy]
  | a :: b :: c :: rest => by
    by_cases hr : rest = []
    · subst hr
      have hy := beq_eq_false_of_ne_char (b64char_props (c % 64)).2.1
      simp [base64Encode, trailingEq, hy]
    · obtain ⟨n, t, ht⟩ := base64Encode_head rest hr
      have hhead : b64char n ∈ base64Encode rest := by
        rw [ht]; exact List.mem_cons_self _ _
      have hne := beq_eq_false_of_ne_char (b64char_props n).2.1
      have h4 : base64Encode (a :: b :: c :: rest) =
          [b64char (a / 4), b64char (a % 4 * 16 + b / 16),
           b64char (b % 16 * 4 + c / 64), b64char (c % 64)] ++ base64Encode rest := by
        simp [base64Encode]
      rw [h4, trailingEq_append_right _ _ _ hhead hne, base64Encode_trailing rest]
      simp only [List.length_cons]
      omega

theorem getBase64ImageSize_encode (bs : List Nat) :
    getBase64ImageSize (base64Encode bs) = (bs.length : Int) := by
  unfold getBase64ImageSize
  rw [jsSecondSegment_no_comma _ (base64Encode_no_comma bs),
      stripSpaces_id_of_no_space _ (base64Encode_no_space bs),
      base64Encode_length, base64Encode_trailing]
  omega

theorem strip_agree (l : List Char) (h : goodDataUriShape l = true) :
    jsSecondSegment l = specStripToComma l := by
  unfold goodDataUriShape at h
  cases hs : splitComma l with
  | nil => exact absurd hs (splitComma_ne_nil l)
  | cons a rest =>
    cases rest with
    | nil =>
      obtain ⟨_, hnc⟩ := splitComma_eq_single l a hs
      rw [jsSecondSegment_no_comma l hnc]
      unfold specStripToComma
      rw [if_neg hnc]
    | cons b rest₂ =>
      cases rest₂ with
      | nil =>
        rw [hs] at h
        have hb : ¬(b = []) := by simpa using h
        obtain ⟨hl, hna⟩ := splitComma_eq_pair l a b hs
        have hjs : jsSecondSegment l = b := by
          unfold jsSecondSegment
          rw [hs]
          simp [hb]
        have hspec : specStripToComma l = b := by
          unfold specStripToComma
          have hmem : ',' ∈ l := by
            rw [hl]; exact List.mem_append_right _ (List.mem_cons_self _ _)
          rw [if_pos hmem, hl, dropWhile_to_comma a b hna]
          rfl
        rw [hjs, hspec]
      | cons c rest₃ =>
        rw [hs] at h
        simp at h

/-- C9 counterexample: on the input AA,BB,CC the source routine keeps only
the segment between the first and second comma (BB, giving 1) while the
claim's described stripping (drop up to and including the first comma,
keeping BB,CC) gives 3, so the claim's formula does not describe the
routine on every input string. -/
theorem c9_counterexample :
    getBase64ImageSize ("AA,BB,CC".data) = 1 ∧
    specBase64Size ("AA,BB,CC".data) = 3 ∧
    ¬(getBase64ImageSize ("AA,BB,CC".data) = specBase64Size ("AA,BB,CC".data)) := by
  decide

/-- C9 amended: the routine uses the second comma-split segment when it
exists and is non-empty, otherwise the whole string; on inputs with at
most one comma (and a non-empty remainder when one occurs) this agrees
with the claim's strip-through-the-first-comma description, and on every
well-formed base64 encoding of N raw bytes the routine returns exactly
N. -/
theorem c9_amended_base64_size :
    (∀ l : List Char, goodDataUriShape l = true →
        getBase64ImageSize l = specBase64Size l) ∧
    (∀ bs : List Nat, getBase64ImageSize (base64Encode bs) = (bs.length : Int)) := by
  constructor
  · intro l h
    unfold getBase64ImageSize specBase64Size
    rw [strip_agree l h]
  · exact getBase64ImageSize_encode

theorem trimChars_not_empty_of_dataPref (image : List Char)
    (h : dataImagePref.isPrefixOf image = true) :
    (trimChars image).isEmpty = false := by
  have hpre : dataImagePref <+: image := by
    rw [← List.isPrefixOf_iff_prefix]; exact h
  obtain ⟨t, ht⟩ := hpre
  have him : image = 'd' :: ("ata:image/".data ++ t) := by rw [← ht]; rfl
  have h1 : image.dropWhile isSpaceChar = image := by
    rw [him, List.dropWhile_cons]
    simp [isSpaceChar]
  have hd : ('d' : Char) ∈ image.reverse := by
    rw [List.mem_reverse, him]; exact List.mem_cons_self _ _
  have h3 : (image.dropWhile isSpaceChar).reverse.dropWhile isSpaceChar ≠ [] := by
    rw [h1]
    exact dropWhile_ne_nil_of_mem isSpaceChar image.reverse 'd' hd (by decide)
  unfold trimChars
  simpa [List.isEmpty_iff] using h3

/-- C8: for saveImage input whose image string carries the data:image/
prefix, the local validation passes the size check exactly when the
computed decoded size is at most 1048576 bytes (the 1 MiB boundary is
inclusive on the pass side) and rejects larger sizes with the
exceeded-upload-size-limit kind, numerically 30010 and distinct from the
invalid-payload kind 30001 used for a wrong prefix. -/
theorem c8_saveImage_size_boundary (image : List Char)
    (h : dataImagePref.isPrefixOf image = true) :
    (getBase64ImageSize image ≤ 1048576 → saveImageValidate image = none) ∧
    (1048576 < getBase64ImageSize image →
      saveImageValidate image = some ErrCode.exceededUploadSizeLimit) ∧
    ErrCode.exceededUploadSizeLimit.toNat = 30010 ∧
    ErrCode.invalidPayload.toNat = 30001 ∧
    ¬(ErrCode.exceededUploadSizeLimit = ErrCode.invalidPayload) := by
  have hguard : ((trimChars image).isEmpty || !(dataImagePref.isPrefixOf image)) = false := by
    rw [trimChars_not_empty_of_dataPref image h, h]
    rfl
  refine ⟨?_, ?_, rfl, rfl, by decide⟩
  · intro hle
    unfold saveImageValidate
    rw [hguard]
    simp only [Bool.false_eq_true, if_false]
    rw [if_neg (by omega : ¬(getBase64ImageSize image > 1048576))]
  · intro hgt
    unfold saveImageValidate
    rw [hguard]
    simp only [Bool.false_eq_true, if_false]
    rw [if_pos hgt]

theorem c8_witness :
    saveImageValidate ("data:image/png;base64,QQ==".data) = none :=
  (c8_saveImage_size_boundary ("data:image/png;base64,QQ==".data) (by decide)).1
    (by decide)

/-- C2 evaluated at the failing scenario: two live instances, the shared
listener bound to the first one (index 0) because only the installing
instance's messageHandler is ever registered; the second instance
(index 1) owns the pending call tok2.  An inbound reply tagged tok2 is
dropped: no registry changes, no continuation is invoked, and the second
instance still holds tok2 pending afterwards — the listener does not
dispatch to the instance that created the call. -/
theorem c2_reply_to_second_instance_ignored :
    deliverShared [[], [("tok2", some 30000)]] (some 0) (some "tok2") =
      ([[], [("tok2", some 30000)]], []) ∧
    lookupCb ((deliverShared [[], [("tok2", some 30000)]] (some 0)
        (some "tok2")).1.getD 1 []) "tok2" = some (some 30000) := by
  decide

/-- C3 evaluated at the failing input: pass-through dispatch of a command
name absent from the command table whose payload itself carries
messageId and cmd keys.  The object spread in _sendMessage puts the
payload last, so the outgoing message's messageId and cmd fields are
the payload's values rather than the freshly minted token and the
dispatched name, while the pending call is registered under the fresh
token — the reserved fields are overwritten and the wire id no longer
matches the registry key. -/
theorem c3_payload_overwrites_reserved_fields :
    ¬("customCmd" ∈ commandNames) ∧
    objGet ((sendMessageCore [] true "customCmd"
        [("messageId", Val.str "X"), ("cmd", Val.str "evil")]
        "fresh-1" 30000).sent.getD []) "messageId" = some (Val.str "X") ∧
    objGet ((sendMessageCore [] true "customCmd"
        [("messageId", Val.str "X"), ("cmd", Val.str "evil")]
        "fresh-1" 30000).sent.getD []) "cmd" = some (Val.str "evil") ∧
    (sendMessageCore [] true "customCmd"
        [("messageId", Val.str "X"), ("cmd", Val.str "evil")]
        "fresh-1" 30000).cbs = [("fresh-1", some 30000)] := by
  decide

/-- C4: destroy settles every pending call of the instance with a
timeout-kind error response (numeric 30011), clears every armed timer,
and empties the registry; but evaluated at an instance with one pending
call, the settling response carries message none — not the claimed
Connection destroyed text — because handleError drops the message it is
given. -/
theorem c4_destroy_settles_without_message :
    destroyCallbacks [("tok4", some 30000)] =
      ⟨[], [("tok4", Settled.errResp ⟨ErrCode.timeoutError, "tok4", none⟩)],
        ["tok4"]⟩ ∧
    ErrCode.timeoutError.toNat = 30011 ∧
    (∀ cbs : Registry, (destroyCallbacks cbs).cbs = [] ∧
      ∀ pr ∈ (destroyCallbacks cbs).resolved,
        pr.2 = Settled.errResp ⟨ErrCode.timeoutError, pr.1, none⟩) := by
  refine ⟨by decide, rfl, ?_⟩
  intro cbs
  refine ⟨rfl, ?_⟩
  intro pr hpr
  simp only [destroyCallbacks, handleError] at hpr
  obtain ⟨q, _, rfl⟩ := List.mem_map.mp hpr
  rfl

/-- C6: dispatching any command with no reachable parent window resolves
immediately with an error response of the default invalid-payload kind
(numeric 30001), posts nothing, and leaves the registry unchanged when
the minted token is fresh — no pending call is registered.  The
response's message field is none: handleError drops the
host-unreachable text, so no message indicating the unreachable host is
carried. -/
theorem c6_no_parent_immediate_error (cbs : Registry) (cmd : String)
    (payload : Obj) (freshId : String) (tmo : Nat)
    (hfresh : lookupCb cbs freshId = none) :
    sendMessageCore cbs false cmd payload freshId tmo =
      ⟨cbs, none,
       [(freshId, Settled.errResp ⟨ErrCode.invalidPayload, freshId, none⟩)]⟩ ∧
    ErrCode.invalidPayload.toNat = 30001 := by
  have hcl : cleanupCallback cbs freshId = (cbs, []) := by
    unfold cleanupCallback
    by_cases h0 : freshId = ""
    · rw [if_pos h0]
    · rw [if_neg h0, hfresh]
  refine ⟨?_, rfl⟩
  simp [sendMessageCore, hcl, handleError]

theorem c6_witness :
    sendMessageCore [("a", some 5)] false "openURL" [] "f6" 30000 =
      ⟨[("a", some 5)], none,
       [("f6", Settled.errResp ⟨ErrCode.invalidPayload, "f6", none⟩)]⟩ :=
  (c6_no_parent_immediate_error [("a", some 5)] "openURL" [] "f6" 30000
    (by decide)).1

/-- C7: dispatching to a reachable host registers the pending call under
the fresh token and arms a timer at the instance's configured timeout —
the constructor override when one is given (non-zero, since a zero
override is falsy), otherwise 30000 ms — for every command except
exactly openURL and scanQRCode; for those two the pending call is still
registered but with no timer, so no timeout can ever fire for them. -/
theorem c7_timer_arming (cfg : Option Nat) (cbs : Registry) (cmd : String)
    (payload : Obj) (freshId : String) (hcfg : ¬(cfg = some 0)) :
    defaultTimeout cfg = cfg.getD 30000 ∧
    (¬(cmd = "openURL") ∧ ¬(cmd = "scanQRCode") →
      sendMessageCore cbs true cmd payload freshId (defaultTimeout cfg) =
        ⟨(freshId, some (defaultTimeout cfg)) :: cbs,
         some (("cmd", Val.str cmd) :: ("messageId", Val.str freshId) :: payload),
         []⟩) ∧
    ((cmd = "openURL" ∨ cmd = "scanQRCode") →
      sendMessageCore cbs true cmd payload freshId (defaultTimeout cfg) =
        ⟨(freshId, none) :: cbs,
         some (("cmd", Val.str cmd) :: ("messageId", Val.str freshId) :: payload),
         []⟩) := by
  refine ⟨?_, ?_, ?_⟩
  · cases cfg with
    | none => rfl
    | some t =>
      have ht : ¬(t = 0) := fun h0 => hcfg (by rw [h0])
      simp [defaultTimeout, ht]
  · intro hne
    simp [sendMessageCore, hne.1, hne.2]
  · intro hor
    simp [sendMessageCore, hor]

theorem c7_witness :
    sendMessageCore [] true "encrypt" [] "f7" (defaultTimeout (some 5000)) =
      ⟨[("f7", some (defaultTimeout (some 5000)))],
       some [("cmd", Val.str "encrypt"), ("messageId", Val.str "f7")], []⟩ :=
  (c7_timer_arming (some 5000) [] "encrypt" [] "f7" (by decide)).2.1
    ⟨by decide, by decide⟩

/-- C10: a constructor timeout option of 0 is falsy in the source's
config.timeout || 30000, so it does not install a zero timeout: the
instance default becomes 30000 ms, the effective default is positive
for every configuration, and a dispatch using the default derived from
a zero override arms a 30000 ms timer. -/
theorem c10_zero_timeout_impossible :
    defaultTimeout (some 0) = 30000 ∧
    defaultTimeout none = 30000 ∧
    (∀ cfg : Option Nat, 0 < defaultTimeout cfg) ∧
    (sendMessageCore [] true "encrypt" [] "f10" (defaultTimeout (some 0))).cbs =
      [("f10", some 30000)] := by
  refine ⟨rfl, rfl, ?_, by decide⟩
  intro cfg
  cases cfg with
  | none => decide
  | some t =>
    by_cases h : t = 0
    · simp [defaultTimeout, h]
    · simp [defaultTimeout, h]
      omega

end RelayX
